import Mathlib

/-!
# DroneDB: listing (`src/list.cpp`) and tiler interface (`src/tiler.h`)

A shallow embedding of the listing code of `src/list.cpp` and of the tiler
operations declared in `src/tiler.h`, followed by the properties proved
about them.

* Output sinks (`std::ostream&`) are the string of bytes written so far.
* Exceptions are values of `Exn`, returned through `Except`.
* The database is reached through `rootDirectory` and `getMatchingEntries`
  (declared in `dbops.h`); every call is recorded in the `World`.
-/

namespace ddb

/-! ## Listing: data model -/

/-- Exception classes of `exceptions.h` that `list.cpp` throws. -/
inductive Exn where
  | FSException (msg : String)
  | InvalidArgsException (msg : String)
deriving DecidableEq, Repr

/-- Database entry (`Entry` of `entry.h`): `list.cpp` reads `path`, `type`
and `depth`; `payload` stands for the remaining fields (hash, meta, size,
geometry), which only `toJSON` reads. `type` is the `EntryType` enum value. -/
structure Entry where
  path : String
  type : Int
  depth : Int
  payload : String
deriving DecidableEq, Repr

/-- Requirements of the C++ standard on a comparator handed to `std::sort`:
a strict weak ordering. -/
structure StrictWeakOrder {α : Type} (comp : α → α → Bool) : Prop where
  irrefl : ∀ a, comp a a = false
  trans : ∀ a b c, comp a b = true → comp b c = true → comp a c = true
  incompTrans : ∀ a b c, comp a b = false → comp b a = false →
    comp b c = false → comp c b = false → comp a c = false ∧ comp c a = false

/-- The contract of `std::sort(first, last, comp)`: the result is a
rearrangement of the input in which no element is ordered before an earlier
one by `comp`. The order of equivalent elements is left open by the standard,
so the listing code is modelled over every function with this contract. -/
structure StdSort where
  sort : (Entry → Entry → Bool) → List Entry → List Entry
  perm : ∀ comp l, (sort comp l).Perm l
  sorted : ∀ comp l, StrictWeakOrder comp →
    (sort comp l).Pairwise (fun a b => comp b a = false)

/-- One implementation of the `std::sort` contract: merge sort. -/
def mergeStdSort : StdSort where
  sort := fun comp l => l.mergeSort (fun a b => !comp b a)
  perm := fun comp l => List.mergeSort_perm l _
  sorted := fun comp l h => by
    have hs := @List.sorted_mergeSort Entry (fun a b => !comp b a)
      (by
        intro a b c hab hbc
        simp only [Bool.not_eq_true'] at hab hbc ⊢
        cases hca : comp c a with
        | false => rfl
        | true =>
          exfalso
          cases hba2 : comp a b with
          | true =>
            have := h.trans c a b hca hba2
            simp [hbc] at this
          | false =>
            cases hcb : comp b c with
            | true =>
              have := h.trans b c a hcb hca
              simp [hab] at this
            | false =>
              have := (h.incompTrans a b c hba2 hab hcb hbc).2
              simp [hca] at this)
      (by
        intro a b
        cases hab : comp a b with
        | false => simp [hab]
        | true =>
          cases hba : comp b a with
          | false => simp [hba]
          | true =>
            have := h.trans a b a hab hba
            simp [h.irrefl a] at this)
      l
    exact hs.imp (fun hab => by simpa using hab)

/-- Calls into the database layer (`dbops.h`). -/
inductive DbCall where
  | rootDirectory
  | getMatchingEntries (path : String) (depth : Int) (isFolder : Bool)
deriving DecidableEq, Repr

/-- What lies outside `list.cpp`: the database content as seen through
`dbops.h`, the path helpers of `io::Path`, the process state, the JSON
serialisation of an entry and the library sort. `isFolderDefault` is the
default value of the fourth parameter of `getMatchingEntries` and `Directory`
the `EntryType::Directory` enum value, both declared in absent headers. -/
structure Env where
  rootDirectory : String
  currentPath : String
  relativeTo : String → String → String
  getMatchingEntries : String → Int → Bool → List Entry
  isFolderDefault : Bool
  Directory : Int
  toJSONDump : Entry → String
  stdSort : StdSort

/-- Observable effects of the listing: bytes written to the output sink and
calls issued to the database, oldest first. -/
structure World where
  output : String
  dbCalls : List DbCall
deriving DecidableEq, Repr

/-! ## Listing: operations of `list.cpp` -/

/-- `displayEntry` (list.cpp:13-28). -/
def displayEntry (env : Env) (e : Entry) (output : String) (format : String) :
    Except Exn Unit × String :=
  if format = "text" then
    (.ok (), output ++ e.path ++ "\n")
  else if format = "json" then
    (.ok (), output ++ env.toJSONDump e)
  else
    (.error (.FSException ("Unsupported format \x27" ++ format ++ "\x27")), output)

/-- Body of the json loop of `displayEntries` (list.cpp:52-62): the state is
the sink and the `first` flag. -/
def displayEntries.jsonStep (env : Env) (st : String × Bool) (e : Entry) : String × Bool :=
  let out := if !st.2 then st.1 ++ "," else st.1
  (out ++ env.toJSONDump e, false)

/-- `displayEntries` (list.cpp:30-72). -/
def displayEntries (env : Env) (entries : List Entry) (output : String) (format : String) :
    Except Exn Unit × String :=
  if format = "text" then
    (.ok (), entries.foldl (fun out e => out ++ e.path ++ "\n") output)
  else if format = "json" then
    let st := entries.foldl (displayEntries.jsonStep env) (output ++ "[", true)
    (.ok (), st.1 ++ "]")
  else
    (.error (.FSException ("Unsupported format \x27" ++ format ++ "\x27")), output)

/-- `std::unique(first, last, pred)` after a kept element `last`: an element
equivalent to the last kept one is dropped. -/
def uniqueAux {α : Type} (pred : α → α → Bool) (last : α) : List α → List α
  | [] => []
  | b :: l => if pred last b then uniqueAux pred last l else b :: uniqueAux pred b l

/-- `std::unique` followed by `erase` of the tail: of every run of
consecutive equivalent elements the first is kept. -/
def unique {α : Type} (pred : α → α → Bool) : List α → List α
  | [] => []
  | a :: l => a :: uniqueAux pred a l

/-- State of the loop of `getBaseEntries`: `expandFolders`, `baseEntries`
and the database calls made. -/
structure BaseState where
  expandFolders : Bool
  baseEntries : List Entry
  dbCalls : List DbCall

/-- One iteration of the loop of `getBaseEntries` (list.cpp:80-101). -/
def getBaseEntries.step (env : Env) (rootDirectory : String) (st : BaseState)
    (path : String) : BaseState :=
  let pathStr := env.relativeTo path rootDirectory
  let expandFolders := st.expandFolders || decide (pathStr.length > 0)
  let depth : Int := (pathStr.toList.count '/' : Nat)
  let found := env.getMatchingEntries pathStr depth env.isFolderDefault
  { expandFolders := expandFolders
    baseEntries := st.baseEntries ++ found
    dbCalls := st.dbCalls ++ [DbCall.getMatchingEntries pathStr depth env.isFolderDefault] }

/-- Comparator of the two path sorts (list.cpp:104-107, 186-189). -/
def pathLess (l r : Entry) : Bool := decide (l.path < r.path)

/-- Predicate of the duplicate removal (list.cpp:108-111). -/
def pathEq (l r : Entry) : Bool := decide (l.path = r.path)

/-- Comparator of the sort by type (list.cpp:114-117). -/
def typeLess (l r : Entry) : Bool := decide (l.type < r.type)

/-- `getBaseEntries` (list.cpp:74-118); the two reference parameters
`expandFolders` and `baseEntries` come back in the result. `ourPath`
(list.cpp:76) only feeds the debug log and is left out. -/
def getBaseEntries (env : Env) (pathList : List String) (rootDirectory : String)
    (st : BaseState) : BaseState :=
  let st1 := pathList.foldl (getBaseEntries.step env rootDirectory) st
  let sorted := env.stdSort.sort pathLess st1.baseEntries
  let deduped := unique pathEq sorted
  { st1 with baseEntries := env.stdSort.sort typeLess deduped }

/-- State of the loop of `listIndex` over `baseEntries`: `outputEntries` and
the database calls made. -/
structure OutState where
  outputEntries : List Entry
  dbCalls : List DbCall

/-- One iteration of the loop of `listIndex` (list.cpp:160-183). -/
def listIndex.step (env : Env) (isSingle expandFolders recursive : Bool)
    (maxRecursionDepth : Int) (st : OutState) (entry : Entry) : OutState :=
  if entry.type ≠ env.Directory then
    { st with outputEntries := st.outputEntries ++ [entry] }
  else
    let st1 : OutState :=
      if !isSingle || !expandFolders then
        { st with outputEntries := st.outputEntries ++ [entry] }
      else st
    if expandFolders then
      let depth := if recursive then maxRecursionDepth else entry.depth + 1
      let entries := env.getMatchingEntries entry.path depth true
      { outputEntries := st1.outputEntries ++ entries
        dbCalls := st1.dbCalls ++ [DbCall.getMatchingEntries entry.path depth true] }
    else st1

/-- The part of `listIndex` between the format check and the call of
`displayEntries` (list.cpp:126-189): the sorted `outputEntries` and the
database calls made, after the calls `dbCalls` made before. -/
def listIndex.collect (env : Env) (paths : List String) (recursive : Bool)
    (maxRecursionDepth : Int) (dbCalls : List DbCall) : OutState :=
  let directory := env.rootDirectory
  let calls := dbCalls ++ [DbCall.rootDirectory]
  let pathList : List String :=
    if paths.isEmpty then [env.relativeTo env.currentPath directory] else paths
  let base := getBaseEntries env pathList directory
    { expandFolders := recursive, baseEntries := [], dbCalls := calls }
  let isSingle : Bool := decide (pathList.length = base.baseEntries.length)
  let out := base.baseEntries.foldl
    (listIndex.step env isSingle base.expandFolders recursive maxRecursionDepth)
    { outputEntries := [], dbCalls := base.dbCalls }
  { out with outputEntries := env.stdSort.sort pathLess out.outputEntries }

/-- `listIndex` (list.cpp:120-195). -/
def listIndex (env : Env) (paths : List String) (w : World) (format : String)
    (recursive : Bool) (maxRecursionDepth : Int) : Except Exn Unit × World :=
  if format ≠ "json" ∧ format ≠ "text" then
    (.error (.InvalidArgsException ("Invalid format " ++ format)), w)
  else
    let out := listIndex.collect env paths recursive maxRecursionDepth w.dbCalls
    let r := displayEntries env out.outputEntries w.output format
    (r.1, { output := r.2, dbCalls := out.dbCalls })

/-- All entries matched for the requested paths, in request order. -/
def matchedEntries (env : Env) (pathList : List String) (rootDirectory : String) : List Entry :=
  pathList.flatMap (fun path =>
    let pathStr := env.relativeTo path rootDirectory
    env.getMatchingEntries pathStr ((pathStr.toList.count '/' : Nat) : Int) env.isFolderDefault)

/-! ## Tiler interface: data model of `tiler.h`

`tiler.cpp` is not among the sources: the operations below are modelled from
the specification, with the parameter and result types that `tiler.h`
declares. A `double` is an exact rational. -/

/-- `Projected2D` (`geo.h`): a pair of doubles. -/
structure Projected2D where
  x : ℚ
  y : ℚ
deriving DecidableEq, Repr

/-- `BoundingBox<T>` (`geo.h`): two points. -/
structure BoundingBox (α : Type) where
  min : α
  max : α
deriving DecidableEq, Repr

/-- The fields of `class GlobalMercator` (tiler.h:18-22). -/
structure GlobalMercator where
  originShift : ℚ
  initialResolution : ℚ
  maxZoomLevel : Int
  tileSize : Int
deriving DecidableEq, Repr

/-- `TileInfo` (tiler.h:65-69). -/
structure TileInfo where
  tx : Int
  ty : Int
  tz : Int
deriving DecidableEq, Repr

/-- The fields of `class Tiler` (tiler.h:72-87) that the tile enumeration
reads: the raster extent in meters, the Mercator helper and the flags. -/
structure Tiler where
  tileSize : Int
  tms : Bool
  oMinX : ℚ
  oMaxX : ℚ
  oMaxY : ℚ
  oMinY : ℚ
  mercator : GlobalMercator
  tMaxZ : Int
  tMinZ : Int
deriving DecidableEq, Repr

/-- Conversion of a `double` to `int` when a double is passed for an `int`
parameter: the fractional part is discarded (truncation toward zero). -/
def doubleToInt (q : ℚ) : Int := if 0 ≤ q then ⌊q⌋ else ⌈q⌉

/-- Modelled from the spec: the constructor `GlobalMercator()` (tiler.h:24,
body absent). The conversions are parameterized by the tile size and the
origin shift, and `initialResolution = (2·originShift)/tileSize`; the value of
`maxZoomLevel` is not given and stays a parameter. -/
def GlobalMercator.make (tileSize : Int) (originShift : ℚ) (maxZoomLevel : Int) :
    GlobalMercator :=
  { originShift := originShift
    initialResolution := 2 * originShift / tileSize
    maxZoomLevel := maxZoomLevel
    tileSize := tileSize }

/-- Modelled from the spec: `GlobalMercator::resolution` (tiler.h:47, body
absent): `initialResolution / 2^zoom`. -/
def GlobalMercator.resolution (gm : GlobalMercator) (zoom : Int) : ℚ :=
  gm.initialResolution / 2 ^ zoom

/-- Modelled from the spec: `GlobalMercator::pixelsToMeters` (tiler.h:38, body
absent): `resolution(zoom)·px − originShift`, with the Y axis inverted. -/
def GlobalMercator.pixelsToMeters (gm : GlobalMercator) (px py zoom : Int) : Projected2D :=
  let res := gm.resolution zoom
  { x := px * res - gm.originShift
    y := gm.originShift - py * res }

/-- Modelled from the spec: `GlobalMercator::metersToPixels` (tiler.h:41, body
absent): the inverse of `pixelsToMeters`. The meter arguments are `int`, as
declared. -/
def GlobalMercator.metersToPixels (gm : GlobalMercator) (mx my zoom : Int) : Projected2D :=
  let res := gm.resolution zoom
  { x := (mx + gm.originShift) / res
    y := (gm.originShift - my) / res }

/-- The same formula as `metersToPixels` on meter values that are not cut to
`int`: the inverse of `pixelsToMeters` over the doubles. -/
def GlobalMercator.metersToPixelsExact (gm : GlobalMercator) (mx my : ℚ) (zoom : Int) :
    Projected2D :=
  let res := gm.resolution zoom
  { x := (mx + gm.originShift) / res
    y := (gm.originShift - my) / res }

/-- The round trip of the specification as C++ evaluates it:
`metersToPixels(m.x, m.y, zoom)` with `m = pixelsToMeters(px, py, zoom)`; the
two doubles are converted to the declared `int` parameters. -/
def GlobalMercator.roundTrip (gm : GlobalMercator) (px py zoom : Int) : Projected2D :=
  let m := gm.pixelsToMeters px py zoom
  gm.metersToPixels (doubleToInt m.x) (doubleToInt m.y) zoom

/-- Modelled from the spec: `GlobalMercator::pixelsToTile` (tiler.h:44, body
absent): division by `tileSize` rounded up, minus one, so that a pixel on a
tile edge belongs to the tile below or left of it. -/
def GlobalMercator.pixelsToTile (gm : GlobalMercator) (px py : Int) : Projected2D :=
  { x := ((⌈(px : ℚ) / gm.tileSize⌉ - 1 : Int) : ℚ)
    y := ((⌈(py : ℚ) / gm.tileSize⌉ - 1 : Int) : ℚ) }

/-- Modelled from the spec: `GlobalMercator::metersToTile` (tiler.h:35, body
absent): `metersToPixels` then `pixelsToTile`. -/
def GlobalMercator.metersToTile (gm : GlobalMercator) (mx my zoom : Int) : Projected2D :=
  let p := gm.metersToPixels mx my zoom
  gm.pixelsToTile (doubleToInt p.x) (doubleToInt p.y)

/-- Modelled from the spec: `GlobalMercator::zoomForPixelSize` (tiler.h:50,
body absent): the smallest zoom whose `resolution(zoom) ≤ pixelSize`, clamped
to `[0, maxZoomLevel]`. The search runs over the zoom levels `0..maxZoomLevel`
and yields `maxZoomLevel` when none of them qualifies. -/
def GlobalMercator.zoomForPixelSize (gm : GlobalMercator) (pixelSize : ℚ) : Int :=
  match (List.range (gm.maxZoomLevel.toNat + 1)).find?
      (fun (z : Nat) => decide (gm.resolution (z : Int) ≤ pixelSize)) with
  | some z => (z : Int)
  | none => gm.maxZoomLevel

/-- Modelled from the spec: `Tiler::xyzToTMS` (tiler.h:107, body absent): the
TMS row is the complement `2^zoom - 1 - row` of the XYZ row. -/
def Tiler.xyzToTMS (ty tz : Int) : Int := 2 ^ tz.toNat - 1 - ty

/-- Modelled from the spec: `Tiler::tmsToXYZ` (tiler.h:104, body absent): the
same complement, taken in the other direction. -/
def Tiler.tmsToXYZ (ty tz : Int) : Int := 2 ^ tz.toNat - 1 - ty

/-- Modelled from the spec: `Tiler::getMinMaxCoordsForZ` (tiler.h:122, body
absent): the tile-index bounding box covering the raster extent at that zoom,
from the tile coordinates of the extent corners, with `min ≤ max` on both
axes (the invariant of `BoundingBox`). -/
def Tiler.getMinMaxCoordsForZ (t : Tiler) (tz : Int) : BoundingBox Projected2D :=
  let a := t.mercator.metersToTile (doubleToInt t.oMinX) (doubleToInt t.oMinY) tz
  let b := t.mercator.metersToTile (doubleToInt t.oMaxX) (doubleToInt t.oMaxY) tz
  { min := { x := min a.x b.x, y := min a.y b.y }
    max := { x := max a.x b.x, y := max a.y b.y } }

/-- The values of a loop `for (int i = lo; i <= hi; i++)`. -/
def intRange (lo hi : Int) : List Int :=
  (List.range (hi + 1 - lo).toNat).map (fun (i : Nat) => lo + (i : Int))

/-- Modelled from the spec: `Tiler::getTilesForZoomLevel` (tiler.h:118, body
absent): every (column, row) pair of the tile-index box of the extent at
that zoom. -/
def Tiler.getTilesForZoomLevel (t : Tiler) (tz : Int) : List TileInfo :=
  let b := t.getMinMaxCoordsForZ tz
  (intRange (doubleToInt b.min.y) (doubleToInt b.max.y)).flatMap (fun ty =>
    (intRange (doubleToInt b.min.x) (doubleToInt b.max.x)).map (fun tx =>
      ({ tx := tx, ty := ty, tz := tz } : TileInfo)))

/-- Decimal value of a string of digits. -/
def decimalValue (s : List Char) : Nat :=
  s.foldl (fun n c => 10 * n + (c.toNat - 48)) 0

/-- A string holds an integer when it is a non-empty sequence of decimal
digits. -/
def isNumeral (s : List Char) : Prop := s ≠ [] ∧ ∀ c ∈ s, c.isDigit = true

instance : DecidablePred isNumeral := fun s => by
  unfold isNumeral
  infer_instance

/-- An integer of a zoom specification: a non-empty string of decimal digits. -/
def parseInteger (s : List Char) : Option Nat :=
  if s ≠ [] ∧ s.all Char.isDigit = true then some (decimalValue s) else none

/-- Modelled from the spec: `TilerHelper::parseZRange` (tiler.h:129, body
absent): a single integer is `{z,z}`; `"min-max"` is parsed into two integers
with the first required ≤ the second; a malformed or inverted range is an
invalid-argument failure. -/
def TilerHelper.parseZRange (zRange : String) : Except Exn (BoundingBox Int) :=
  match zRange.toList.span (fun c => c != '-') with
  | (single, []) =>
    match parseInteger single with
    | some z => .ok { min := z, max := z }
    | none => .error (.InvalidArgsException ("Invalid zoom range " ++ zRange))
  | (lo, _ :: hi) =>
    match parseInteger lo, parseInteger hi with
    | some a, some b =>
      if a ≤ b then .ok { min := a, max := b }
      else .error (.InvalidArgsException ("Invalid zoom range " ++ zRange))
    | _, _ => .error (.InvalidArgsException ("Invalid zoom range " ++ zRange))

/-! ## Concrete inputs -/

/-- A Web Mercator helper as the constructor would build it: 256 pixel tiles
and origin shift π·6378137 m (to nine decimals). The sources do not give
`maxZoomLevel`; 32 levels are taken here. -/
def webMercator : GlobalMercator :=
  GlobalMercator.make 256 (20037508342789244 / 1000000000) 32

/-- A small database: a directory `a` holding two files. -/
def sampleEnv : Env :=
  { rootDirectory := "/data"
    currentPath := "/data"
    relativeTo := fun p _ => p
    getMatchingEntries := fun p _ isFolder =>
      if isFolder then
        (if p = "a" then [⟨"a/z.jpg", 2, 1, "z"⟩, ⟨"a/b.jpg", 2, 1, "b"⟩] else [])
      else (if p = "a" then [⟨"a", 1, 0, ""⟩] else [])
    isFolderDefault := false
    Directory := 1
    toJSONDump := fun e => "<" ++ e.path ++ ">"
    stdSort := mergeStdSort }

/-! ## Listing: properties -/

theorem pathLess_strictWeakOrder : StrictWeakOrder pathLess where
  irrefl := fun a => by simp [pathLess]
  trans := fun a b c hab hbc => by
    simp only [pathLess, decide_eq_true_eq] at *
    exact lt_trans hab hbc
  incompTrans := fun a b c h1 h2 h3 h4 => by
    simp only [pathLess, decide_eq_false_iff_not, not_lt] at *
    have hab : a.path = b.path := le_antisymm h2 h1
    have hbc : b.path = c.path := le_antisymm h4 h3
    constructor <;> simp [hab, hbc]

theorem typeLess_strictWeakOrder : StrictWeakOrder typeLess where
  irrefl := fun a => by simp [typeLess]
  trans := fun a b c hab hbc => by
    simp only [typeLess, decide_eq_true_eq] at *
    exact lt_trans hab hbc
  incompTrans := fun a b c h1 h2 h3 h4 => by
    simp only [typeLess, decide_eq_false_iff_not, not_lt] at *
    constructor <;> omega

theorem stdSort_pathLess_sorted (S : StdSort) (l : List Entry) :
    (S.sort pathLess l).Pairwise (fun a b => a.path ≤ b.path) :=
  (S.sorted pathLess l pathLess_strictWeakOrder).imp (fun h => by
    simpa [pathLess] using h)

theorem stdSort_typeLess_sorted (S : StdSort) (l : List Entry) :
    (S.sort typeLess l).Pairwise (fun a b => a.type ≤ b.type) :=
  (S.sorted typeLess l typeLess_strictWeakOrder).imp (fun h => by
    simpa [typeLess] using h)

theorem uniqueAux_mem_path (a : Entry) (l : List Entry) (p : String) :
    p = a.path ∨ p ∈ (uniqueAux pathEq a l).map Entry.path ↔
      p = a.path ∨ p ∈ l.map Entry.path := by
  induction l generalizing a with
  | nil => simp [uniqueAux]
  | cons b l ih =>
    by_cases hab : a.path = b.path
    · have : pathEq a b = true := by simp [pathEq, hab]
      simp only [uniqueAux, this, if_true, ih a, List.map_cons, List.mem_cons]
      constructor
      · rintro (h | h)
        · exact Or.inl h
        · exact Or.inr (Or.inr h)
      · rintro (h | h | h)
        · exact Or.inl h
        · exact Or.inl (h.trans hab.symm)
        · exact Or.inr h
    · have : pathEq a b = false := by simp [pathEq, hab]
      simp only [uniqueAux, this, Bool.false_eq_true, if_false, List.map_cons, List.mem_cons]
      have := ih b
      constructor
      · rintro (h | h)
        · exact Or.inl h
        · exact Or.inr (this.mp h)
      · rintro (h | h)
        · exact Or.inl h
        · exact Or.inr (this.mpr h)

theorem unique_mem_path (l : List Entry) (p : String) :
    p ∈ (unique pathEq l).map Entry.path ↔ p ∈ l.map Entry.path := by
  cases l with
  | nil => simp [unique]
  | cons a l =>
    simpa [unique] using uniqueAux_mem_path a l p

theorem uniqueAux_sorted (a : Entry) (l : List Entry)
    (ha : ∀ b ∈ l, a.path ≤ b.path)
    (hl : l.Pairwise (fun x y => x.path ≤ y.path)) :
    (∀ b ∈ uniqueAux pathEq a l, a.path < b.path) ∧
      (uniqueAux pathEq a l).Pairwise (fun x y => x.path < y.path) := by
  induction l generalizing a with
  | nil => simp [uniqueAux]
  | cons b l ih =>
    rw [List.pairwise_cons] at hl
    by_cases hab : a.path = b.path
    · have : pathEq a b = true := by simp [pathEq, hab]
      simp only [uniqueAux, this, if_true]
      exact ih a (fun c hc => ha c (List.mem_cons_of_mem _ hc)) hl.2
    · have : pathEq a b = false := by simp [pathEq, hab]
      simp only [uniqueAux, this, Bool.false_eq_true, if_false]
      have hlt : a.path < b.path := lt_of_le_of_ne (ha b (List.mem_cons_self _ _)) hab
      obtain ⟨h1, h2⟩ := ih b hl.1 hl.2
      refine ⟨?_, List.pairwise_cons.mpr ⟨h1, h2⟩⟩
      intro c hc
      rcases List.mem_cons.mp hc with rfl | hc
      · exact hlt
      · exact lt_trans hlt (h1 c hc)

theorem unique_sorted (l : List Entry) (hl : l.Pairwise (fun x y => x.path ≤ y.path)) :
    (unique pathEq l).Pairwise (fun x y => x.path < y.path) := by
  cases l with
  | nil => simp [unique]
  | cons a l =>
    rw [List.pairwise_cons] at hl
    obtain ⟨h1, h2⟩ := uniqueAux_sorted a l hl.1 hl.2
    exact List.pairwise_cons.mpr ⟨h1, h2⟩

theorem getBaseEntries_loop (env : Env) (rootDirectory : String) (pathList : List String)
    (st : BaseState) :
    (pathList.foldl (getBaseEntries.step env rootDirectory) st).baseEntries =
      st.baseEntries ++ matchedEntries env pathList rootDirectory := by
  induction pathList generalizing st with
  | nil => simp [matchedEntries]
  | cons p ps ih =>
    rw [List.foldl_cons, ih]
    simp [getBaseEntries.step, matchedEntries, List.append_assoc]

/-- C10: after `getBaseEntries`, no two entries of `baseEntries` have the same
path, the paths present are those of the initial content together with those
of all entries matched for the requested paths, and the entries are in
non-decreasing order of type. -/
theorem getBaseEntries_unique_paths_sorted_by_type (env : Env) (pathList : List String)
    (rootDirectory : String) (st : BaseState) :
    ((getBaseEntries env pathList rootDirectory st).baseEntries.map Entry.path).Nodup ∧
    (∀ p : String,
      p ∈ (getBaseEntries env pathList rootDirectory st).baseEntries.map Entry.path ↔
        p ∈ (st.baseEntries ++ matchedEntries env pathList rootDirectory).map Entry.path) ∧
    (getBaseEntries env pathList rootDirectory st).baseEntries.Pairwise
      (fun a b => a.type ≤ b.type) := by
  simp only [getBaseEntries]
  rw [getBaseEntries_loop]
  set all := st.baseEntries ++ matchedEntries env pathList rootDirectory with hall
  have hperm2 := env.stdSort.perm typeLess (unique pathEq (env.stdSort.sort pathLess all))
  have hperm1 := env.stdSort.perm pathLess all
  refine ⟨?_, ?_, stdSort_typeLess_sorted _ _⟩
  · rw [(hperm2.map Entry.path).nodup_iff]
    have := unique_sorted _ (stdSort_pathLess_sorted env.stdSort all)
    rw [List.Nodup, List.pairwise_map]
    exact this.imp (fun h => ne_of_lt h)
  · intro p
    rw [(hperm2.map Entry.path).mem_iff, unique_mem_path, (hperm1.map Entry.path).mem_iff]

theorem foldl_text_eq (entries : List Entry) (output : String) :
    entries.foldl (fun out e => out ++ e.path ++ "\n") output =
      output ++ String.join (entries.map (fun e => e.path ++ "\n")) := by
  induction entries generalizing output with
  | nil => simp [String.join]
  | cons e es ih =>
    rw [List.foldl_cons, ih]
    apply String.ext
    simp [String.data_join, String.data_append, List.append_assoc]

theorem intercalate_go_eq (acc sep : String) (l : List String) :
    String.intercalate.go acc sep l = l.foldl (fun s a => s ++ sep ++ a) acc := by
  induction l generalizing acc with
  | nil => simp [String.intercalate.go]
  | cons a l ih => simp [String.intercalate.go, ih]

theorem foldl_sep_append (p acc sep : String) (l : List String) :
    l.foldl (fun s a => s ++ sep ++ a) (p ++ acc) =
      p ++ l.foldl (fun s a => s ++ sep ++ a) acc := by
  induction l generalizing acc with
  | nil => simp
  | cons a l ih =>
    simp only [List.foldl_cons]
    rw [← ih]
    simp [String.append_assoc]

theorem foldl_jsonStep_rest (env : Env) (entries : List Entry) (out : String) :
    entries.foldl (displayEntries.jsonStep env) (out, false) =
      ((entries.map env.toJSONDump).foldl (fun s a => s ++ "," ++ a) out, false) := by
  induction entries generalizing out with
  | nil => simp
  | cons e es ih =>
    simp only [List.foldl_cons, List.map_cons]
    rw [← ih]
    simp [displayEntries.jsonStep]

theorem foldl_jsonStep_eq (env : Env) (entries : List Entry) (out : String) :
    (entries.foldl (displayEntries.jsonStep env) (out, true)).1 =
      out ++ ",".intercalate (entries.map env.toJSONDump) := by
  cases entries with
  | nil => simp [String.intercalate]
  | cons e es =>
    simp only [List.foldl_cons, List.map_cons, String.intercalate]
    have h1 : displayEntries.jsonStep env (out, true) e = (out ++ env.toJSONDump e, false) := by
      simp [displayEntries.jsonStep]
    rw [h1, foldl_jsonStep_rest, intercalate_go_eq, foldl_sep_append]

/-- C7: `displayEntries` writes one item per entry, in list order. With
format "text" the bytes written are the concatenation of each path followed
by a line break, one such line per entry; with format "json" they are "["
followed by the JSON dumps separated by single commas, followed by "]", and
exactly "[]" for the empty list. -/
theorem displayEntries_writes_one_item_per_entry (env : Env) (entries : List Entry)
    (output : String) :
    displayEntries env entries output "text" =
        (.ok (), output ++ String.join (entries.map (fun e => e.path ++ "\n"))) ∧
    (entries.map (fun e => e.path ++ "\n")).length = entries.length ∧
    displayEntries env entries output "json" =
        (.ok (), output ++ "[" ++ ",".intercalate (entries.map env.toJSONDump) ++ "]") ∧
    displayEntries env [] "" "json" = (.ok (), "[]") := by
  refine ⟨?_, by simp, ?_, ?_⟩
  · simp [displayEntries, foldl_text_eq]
  · have h : ("json" : String) ≠ "text" := by decide
    simp [displayEntries, h, foldl_jsonStep_eq]
  · simp [displayEntries]

/-- C6: a format other than "text" and "json" is rejected with no partial
work: `listIndex` throws `InvalidArgsException` and leaves the world as it
was (nothing written, no database call), and `displayEntries` and
`displayEntry` throw and leave the output sink as it was, whatever the
entries. -/
theorem unsupported_format_rejected_without_effect (env : Env) (format : String)
    (hfmt : format ≠ "text" ∧ format ≠ "json") :
    (∀ (paths : List String) (w : World) (recursive : Bool) (maxRecursionDepth : Int),
      listIndex env paths w format recursive maxRecursionDepth =
        (.error (.InvalidArgsException ("Invalid format " ++ format)), w)) ∧
    (∀ (entries : List Entry) (output : String),
      displayEntries env entries output format =
        (.error (.FSException ("Unsupported format \x27" ++ format ++ "\x27")), output)) ∧
    (∀ (e : Entry) (output : String),
      displayEntry env e output format =
        (.error (.FSException ("Unsupported format \x27" ++ format ++ "\x27")), output)) := by
  obtain ⟨h1, h2⟩ := hfmt
  refine ⟨?_, ?_, ?_⟩
  · intro paths w recursive maxRecursionDepth
    simp [listIndex, h1, h2]
  · intro entries output
    simp [displayEntries, h1, h2]
  · intro e output
    simp [displayEntry, h1, h2]

theorem unsupported_format_rejected_without_effect_witness :
    ("xml" ≠ "text" ∧ "xml" ≠ "json") ∧
    listIndex sampleEnv ["a"] ⟨"", []⟩ "xml" false 0 =
        (.error (.InvalidArgsException ("Invalid format " ++ "xml")), ⟨"", []⟩) :=
  ⟨by decide,
    (unsupported_format_rejected_without_effect sampleEnv "xml" (by decide)).1 ["a"] ⟨"", []⟩
      false 0⟩

theorem getBaseEntries_loop_calls (env : Env) (rootDirectory : String)
    (pathList : List String) (st : BaseState) :
    ∃ rest, (pathList.foldl (getBaseEntries.step env rootDirectory) st).dbCalls =
      st.dbCalls ++ rest := by
  induction pathList generalizing st with
  | nil => exact ⟨[], by simp⟩
  | cons p ps ih =>
    obtain ⟨r, hr⟩ := ih (getBaseEntries.step env rootDirectory st p)
    exact ⟨_, by rw [List.foldl_cons, hr]; simp only [getBaseEntries.step, List.append_assoc]; rfl⟩

theorem listIndex_step_calls (env : Env) (isSingle expandFolders recursive : Bool)
    (maxRecursionDepth : Int) (st : OutState) (entry : Entry) :
    ∃ rest, (listIndex.step env isSingle expandFolders recursive maxRecursionDepth st
      entry).dbCalls = st.dbCalls ++ rest := by
  by_cases hd : entry.type ≠ env.Directory
  · exact ⟨[], by simp [listIndex.step, hd]⟩
  · cases expandFolders with
    | false => exact ⟨[], by cases isSingle <;> simp [listIndex.step, hd]⟩
    | true =>
      exact ⟨[DbCall.getMatchingEntries entry.path
        (if recursive then maxRecursionDepth else entry.depth + 1) true],
        by cases isSingle <;> simp [listIndex.step, hd]⟩

theorem listIndex_loop_calls (env : Env) (isSingle expandFolders recursive : Bool)
    (maxRecursionDepth : Int) (base : List Entry) (st : OutState) :
    ∃ rest, (base.foldl (listIndex.step env isSingle expandFolders recursive
      maxRecursionDepth) st).dbCalls = st.dbCalls ++ rest := by
  induction base generalizing st with
  | nil => exact ⟨[], by simp⟩
  | cons e es ih =>
    obtain ⟨r, hr⟩ := ih (listIndex.step env isSingle expandFolders recursive
      maxRecursionDepth st e)
    obtain ⟨r1, hr1⟩ := listIndex_step_calls env isSingle expandFolders recursive
      maxRecursionDepth st e
    exact ⟨r1 ++ r, by rw [List.foldl_cons, hr, hr1, List.append_assoc]⟩

theorem getBaseEntries_calls (env : Env) (pathList : List String) (rootDirectory : String)
    (st : BaseState) :
    ∃ rest, (getBaseEntries env pathList rootDirectory st).dbCalls = st.dbCalls ++ rest := by
  simp only [getBaseEntries]
  exact getBaseEntries_loop_calls env rootDirectory pathList st

theorem listIndex_collect_calls (env : Env) (paths : List String) (recursive : Bool)
    (maxRecursionDepth : Int) (dbCalls : List DbCall) :
    ∃ rest, (listIndex.collect env paths recursive maxRecursionDepth dbCalls).dbCalls =
      dbCalls ++ DbCall.rootDirectory :: rest := by
  obtain ⟨r1, h1⟩ := getBaseEntries_calls env
    (if paths.isEmpty = true then [env.relativeTo env.currentPath env.rootDirectory] else paths)
    env.rootDirectory
    { expandFolders := recursive, baseEntries := [], dbCalls := dbCalls ++ [DbCall.rootDirectory] }
  obtain ⟨r2, h2⟩ := listIndex_loop_calls env
    (decide ((if paths.isEmpty = true then
      [env.relativeTo env.currentPath env.rootDirectory] else paths).length =
      (getBaseEntries env
        (if paths.isEmpty = true then [env.relativeTo env.currentPath env.rootDirectory]
          else paths) env.rootDirectory
        { expandFolders := recursive, baseEntries := [],
          dbCalls := dbCalls ++ [DbCall.rootDirectory] }).baseEntries.length))
    (getBaseEntries env
        (if paths.isEmpty = true then [env.relativeTo env.currentPath env.rootDirectory]
          else paths) env.rootDirectory
        { expandFolders := recursive, baseEntries := [],
          dbCalls := dbCalls ++ [DbCall.rootDirectory] }).expandFolders
    recursive maxRecursionDepth
    (getBaseEntries env
        (if paths.isEmpty = true then [env.relativeTo env.currentPath env.rootDirectory]
          else paths) env.rootDirectory
        { expandFolders := recursive, baseEntries := [],
          dbCalls := dbCalls ++ [DbCall.rootDirectory] }).baseEntries
    { outputEntries := [], dbCalls := (getBaseEntries env
        (if paths.isEmpty = true then [env.relativeTo env.currentPath env.rootDirectory]
          else paths) env.rootDirectory
        { expandFolders := recursive, baseEntries := [],
          dbCalls := dbCalls ++ [DbCall.rootDirectory] }).dbCalls }
  refine ⟨r1 ++ r2, ?_⟩
  simp only [listIndex.collect]
  rw [h2, h1]
  simp

/-- For a supported format `listIndex` does reach the database: the call of
`rootDirectory` is recorded after the calls made before. -/
theorem listIndex_valid_format_queries (env : Env) (paths : List String) (w : World)
    (format : String) (recursive : Bool) (maxRecursionDepth : Int)
    (hfmt : format = "text" ∨ format = "json") :
    ∃ rest, (listIndex env paths w format recursive maxRecursionDepth).2.dbCalls =
      w.dbCalls ++ DbCall.rootDirectory :: rest := by
  have hf : ¬ (format ≠ "json" ∧ format ≠ "text") := by
    rcases hfmt with h | h <;> simp [h]
  simp only [listIndex, hf, if_false]
  exact listIndex_collect_calls env paths recursive maxRecursionDepth w.dbCalls

/-- C9: for a supported format, `listIndex` hands to `displayEntries` the
entries it collected, and these are in non-decreasing order of path. -/
theorem listIndex_displays_entries_sorted_by_path (env : Env) (paths : List String)
    (w : World) (format : String) (recursive : Bool) (maxRecursionDepth : Int)
    (hfmt : format = "text" ∨ format = "json") :
    listIndex env paths w format recursive maxRecursionDepth =
      ((displayEntries env
          (listIndex.collect env paths recursive maxRecursionDepth w.dbCalls).outputEntries
          w.output format).1,
       { output := (displayEntries env
          (listIndex.collect env paths recursive maxRecursionDepth w.dbCalls).outputEntries
          w.output format).2,
         dbCalls := (listIndex.collect env paths recursive maxRecursionDepth w.dbCalls).dbCalls }) ∧
    (listIndex.collect env paths recursive maxRecursionDepth w.dbCalls).outputEntries.Pairwise
      (fun a b => a.path ≤ b.path) := by
  constructor
  · have : ¬ (format ≠ "json" ∧ format ≠ "text") := by
      rcases hfmt with h | h <;> simp [h]
    simp [listIndex, this]
  · simp only [listIndex.collect]
    exact stdSort_pathLess_sorted _ _

theorem listIndex_displays_entries_sorted_by_path_witness :
    ("text" = "text" ∨ "text" = "json") ∧
    (listIndex.collect sampleEnv ["a"] false 0 []).outputEntries.Pairwise
      (fun a b => a.path ≤ b.path) :=
  ⟨Or.inl rfl,
    (listIndex_displays_entries_sorted_by_path sampleEnv ["a"] ⟨"", []⟩ "text" false 0
      (Or.inl rfl)).2⟩


theorem join_lines_count (entries : List Entry) :
    (String.join (entries.map (fun e => e.path ++ "\n"))).toList.count '\n' =
      entries.length + (entries.map (fun e => e.path.toList.count '\n')).sum := by
  induction entries with
  | nil => simp [String.join]
  | cons e es ih =>
    have h : (String.join ((e :: es).map (fun e => e.path ++ "\n"))).toList =
        e.path.toList ++ '\n' :: (String.join (es.map (fun e => e.path ++ "\n"))).toList := by
      simp [String.toList, String.data_join, String.data_append]
    rw [h, List.count_append, List.count_cons_self, ih]
    simp only [List.length_cons, List.map_cons, List.sum_cons]
    omega

/-- The sink receives one line break per entry, besides those that the paths
themselves contain: when no path contains a line break, the number of lines
written equals the number of entries. -/
theorem displayEntries_text_line_count (env : Env) (entries : List Entry)
    (h : ∀ e ∈ entries, '\n' ∉ e.path.toList) :
    (displayEntries env entries "" "text").2.toList.count '\n' = entries.length := by
  have hz : (entries.map (fun e => e.path.toList.count '\n')).sum = 0 := by
    apply List.sum_eq_zero
    intro n hn
    rw [List.mem_map] at hn
    obtain ⟨e, he, rfl⟩ := hn
    exact List.count_eq_zero_of_not_mem (h e he)
  have := join_lines_count entries
  simp only [displayEntries, if_true, foldl_text_eq]
  rw [hz] at this
  simpa [String.toList, String.data_append] using this


/-! ## Mercator math: properties -/

theorem doubleToInt_intCast (n : Int) : doubleToInt (n : ℚ) = n := by
  unfold doubleToInt
  split <;> simp

theorem resolution_pos (gm : GlobalMercator) (h : 0 < gm.initialResolution) (zoom : Int) :
    0 < gm.resolution zoom := by
  unfold GlobalMercator.resolution
  positivity

theorem resolution_antitone (gm : GlobalMercator) (h : 0 < gm.initialResolution)
    (z1 z2 : Int) (hz : z1 ≤ z2) : gm.resolution z2 ≤ gm.resolution z1 := by
  unfold GlobalMercator.resolution
  apply div_le_div_of_nonneg_left (le_of_lt h) (by positivity)
  exact zpow_le_zpow_right₀ (by norm_num) hz

/-- Without the conversion of the meter values to `int`, `metersToPixels` is
the exact inverse of `pixelsToMeters`. -/
theorem metersToPixelsExact_pixelsToMeters (gm : GlobalMercator)
    (h : gm.initialResolution ≠ 0) (px py zoom : Int) :
    gm.metersToPixelsExact (gm.pixelsToMeters px py zoom).x (gm.pixelsToMeters px py zoom).y
      zoom = { x := px, y := py } := by
  have hres : gm.resolution zoom ≠ 0 := by
    unfold GlobalMercator.resolution
    exact div_ne_zero h (zpow_ne_zero _ (by norm_num))
  simp only [GlobalMercator.metersToPixelsExact, GlobalMercator.pixelsToMeters]
  congr 1 <;> field_simp

theorem metersToPixelsExact_pixelsToMeters_witness :
    webMercator.initialResolution ≠ 0 ∧
    webMercator.metersToPixelsExact (webMercator.pixelsToMeters 3 3 20).x
      (webMercator.pixelsToMeters 3 3 20).y 20 = { x := ((3 : Int) : ℚ), y := ((3 : Int) : ℚ) } :=
  ⟨by norm_num [webMercator, GlobalMercator.make],
    metersToPixelsExact_pixelsToMeters webMercator
      (by norm_num [webMercator, GlobalMercator.make]) 3 3 20⟩

/-- C1: the round trip through the declared `int` parameters of
`metersToPixels` does not return the pixel: at zoom 20 the pixel (3, 3) comes
back with x = 8.99…, more than 5 pixels off, and already at zoom 0 the pixel
(1, 1) does not come back as x = 1. -/
theorem roundTrip_loses_the_pixel :
    (webMercator.roundTrip 3 3 20).x - 3 > 5 ∧ (webMercator.roundTrip 1 1 0).x ≠ 1 := by
  have h1 : doubleToInt (webMercator.pixelsToMeters 3 3 20).x = -20037507 := by
    unfold doubleToInt
    rw [if_neg (by norm_num [webMercator, GlobalMercator.make, GlobalMercator.pixelsToMeters,
      GlobalMercator.resolution])]
    rw [Int.ceil_eq_iff]
    norm_num [webMercator, GlobalMercator.make, GlobalMercator.pixelsToMeters,
      GlobalMercator.resolution]
  have h2 : doubleToInt (webMercator.pixelsToMeters 1 1 0).x = -19880965 := by
    unfold doubleToInt
    rw [if_neg (by norm_num [webMercator, GlobalMercator.make, GlobalMercator.pixelsToMeters,
      GlobalMercator.resolution])]
    rw [Int.ceil_eq_iff]
    norm_num [webMercator, GlobalMercator.make, GlobalMercator.pixelsToMeters,
      GlobalMercator.resolution]
  constructor
  · simp only [GlobalMercator.roundTrip, GlobalMercator.metersToPixels, h1]
    norm_num [webMercator, GlobalMercator.make, GlobalMercator.resolution]
  · simp only [GlobalMercator.roundTrip, GlobalMercator.metersToPixels, h2]
    norm_num [webMercator, GlobalMercator.make, GlobalMercator.resolution]


theorem zoomForPixelSize_of_lt (gm : GlobalMercator) (h : 0 < gm.initialResolution)
    (hmax : 0 ≤ gm.maxZoomLevel) (p : ℚ) (hp : p < gm.resolution gm.maxZoomLevel) :
    gm.zoomForPixelSize p = gm.maxZoomLevel := by
  unfold GlobalMercator.zoomForPixelSize
  have hnone : (List.range (gm.maxZoomLevel.toNat + 1)).find?
      (fun (z : Nat) => decide (gm.resolution (z : Int) ≤ p)) = none := by
    rw [List.find?_eq_none]
    intro z hz
    rw [List.mem_range] at hz
    simp only [decide_eq_true_eq, not_le]
    have hzle : (z : Int) ≤ gm.maxZoomLevel := by omega
    exact lt_of_lt_of_le hp (resolution_antitone gm h _ _ hzle)
  rw [hnone]

/-- C2 as amended: for every pixel size `p > 0` the zoom level chosen lies in
`[0, maxZoomLevel]`; its resolution is at most `p` whenever the resolution of
the deepest level `maxZoomLevel` is at most `p`; and for a pixel size finer
than the deepest level the zoom chosen is the clamp `maxZoomLevel`, whose
resolution is larger than `p`. -/
theorem zoomForPixelSize_clamped_resolution_le (gm : GlobalMercator) (p : ℚ)
    (hp : 0 < p) (hmax : 0 ≤ gm.maxZoomLevel) :
    (0 ≤ gm.zoomForPixelSize p ∧ gm.zoomForPixelSize p ≤ gm.maxZoomLevel) ∧
    (gm.resolution gm.maxZoomLevel ≤ p → gm.resolution (gm.zoomForPixelSize p) ≤ p) ∧
    (p < gm.resolution gm.maxZoomLevel →
      gm.zoomForPixelSize p = gm.maxZoomLevel ∧ p < gm.resolution (gm.zoomForPixelSize p)) := by
  have hfound : (0 ≤ gm.zoomForPixelSize p ∧ gm.zoomForPixelSize p ≤ gm.maxZoomLevel) ∧
      (gm.resolution gm.maxZoomLevel ≤ p → gm.resolution (gm.zoomForPixelSize p) ≤ p) := by
    unfold GlobalMercator.zoomForPixelSize
    cases hfind : (List.range (gm.maxZoomLevel.toNat + 1)).find?
        (fun (z : Nat) => decide (gm.resolution (z : Int) ≤ p)) with
    | none =>
      simp only
      exact ⟨⟨hmax, le_refl _⟩, fun h => h⟩
    | some z =>
      simp only
      have hz := List.mem_of_find?_eq_some hfind
      rw [List.mem_range] at hz
      have hpz := List.find?_some hfind
      simp only [decide_eq_true_eq] at hpz
      exact ⟨⟨by omega, by omega⟩, fun _ => hpz⟩
  refine ⟨hfound.1, hfound.2, ?_⟩
  intro hlt
  have hinit : 0 < gm.initialResolution := by
    by_contra hn
    have hle : gm.resolution gm.maxZoomLevel ≤ 0 := by
      unfold GlobalMercator.resolution
      exact div_nonpos_of_nonpos_of_nonneg (not_lt.mp hn) (by positivity)
    linarith
  have hz := zoomForPixelSize_of_lt gm hinit hmax p hlt
  exact ⟨hz, by rw [hz]; exact hlt⟩

theorem zoomForPixelSize_clamped_resolution_le_witness :
    (((0 : ℚ) < 1 / 10 ∧ 0 ≤ webMercator.maxZoomLevel ∧
        webMercator.resolution webMercator.maxZoomLevel ≤ 1 / 10) ∧
      (0 ≤ webMercator.zoomForPixelSize (1 / 10) ∧
        webMercator.zoomForPixelSize (1 / 10) ≤ webMercator.maxZoomLevel) ∧
      webMercator.resolution (webMercator.zoomForPixelSize (1 / 10)) ≤ 1 / 10) ∧
    (((0 : ℚ) < 1 / 1000000 ∧ 0 ≤ webMercator.maxZoomLevel ∧
        (1 : ℚ) / 1000000 < webMercator.resolution webMercator.maxZoomLevel) ∧
      webMercator.zoomForPixelSize (1 / 1000000) = webMercator.maxZoomLevel ∧
      (1 : ℚ) / 1000000 < webMercator.resolution (webMercator.zoomForPixelSize (1 / 1000000))) :=
  have hcoarse : webMercator.resolution webMercator.maxZoomLevel ≤ 1 / 10 := by
    norm_num [webMercator, GlobalMercator.make, GlobalMercator.resolution]
  have hfine : (1 : ℚ) / 1000000 < webMercator.resolution webMercator.maxZoomLevel := by
    norm_num [webMercator, GlobalMercator.make, GlobalMercator.resolution]
  ⟨⟨⟨by norm_num, by decide, hcoarse⟩,
      (zoomForPixelSize_clamped_resolution_le webMercator (1 / 10) (by norm_num)
        (by decide)).1,
      (zoomForPixelSize_clamped_resolution_le webMercator (1 / 10) (by norm_num)
        (by decide)).2.1 hcoarse⟩,
    ⟨⟨by norm_num, by decide, hfine⟩,
      (zoomForPixelSize_clamped_resolution_le webMercator (1 / 1000000) (by norm_num)
        (by decide)).2.2 hfine⟩⟩

/-- C2 as stated fails. At the sample helper the pixel size 10⁻⁶ m is finer
than the deepest zoom level, the zoom chosen is the clamp `maxZoomLevel` and
its resolution is larger than the pixel size. The failure does not depend on
the value of `maxZoomLevel`: for every helper with a positive
`initialResolution` and `maxZoomLevel ≥ 0`, half the resolution of the deepest
level is a positive pixel size that the chosen zoom does not reach. -/
theorem zoomForPixelSize_resolution_exceeds :
    ((0 : ℚ) < 1 / 1000000 ∧
      webMercator.zoomForPixelSize (1 / 1000000) = webMercator.maxZoomLevel ∧
      ¬ (webMercator.resolution (webMercator.zoomForPixelSize (1 / 1000000)) ≤
          1 / 1000000)) ∧
    (∀ gm : GlobalMercator, 0 < gm.initialResolution → 0 ≤ gm.maxZoomLevel →
      0 < gm.resolution gm.maxZoomLevel / 2 ∧
      ¬ (gm.resolution (gm.zoomForPixelSize (gm.resolution gm.maxZoomLevel / 2)) ≤
          gm.resolution gm.maxZoomLevel / 2)) := by
  constructor
  · have hres : (1 : ℚ) / 1000000 < webMercator.resolution webMercator.maxZoomLevel := by
      norm_num [webMercator, GlobalMercator.make, GlobalMercator.resolution]
    have hz := zoomForPixelSize_of_lt webMercator
      (by norm_num [webMercator, GlobalMercator.make]) (by decide) (1 / 1000000) hres
    refine ⟨by norm_num, hz, ?_⟩
    rw [hz]; exact not_le.mpr hres
  · intro gm hinit hmax
    have hpos := resolution_pos gm hinit gm.maxZoomLevel
    have hlt : gm.resolution gm.maxZoomLevel / 2 < gm.resolution gm.maxZoomLevel := by
      linarith
    have hz := zoomForPixelSize_of_lt gm hinit hmax _ hlt
    refine ⟨by linarith, ?_⟩
    rw [hz]; exact not_le.mpr hlt

/-! ## Row conversions: properties -/

/-- C3: for every zoom `z ≥ 0` and every row with `0 ≤ row < 2^z`,
`xyzToTMS(row, z)` equals `2^z - 1 - row`, `tmsToXYZ(xyzToTMS(row, z), z)`
equals `row` and so does `xyzToTMS(tmsToXYZ(row, z), z)`, and both
conversions keep the row inside `[0, 2^z)`. -/
theorem xyzToTMS_tmsToXYZ_inverse (row z : Int) (_hz : 0 ≤ z) (h0 : 0 ≤ row)
    (h1 : row < 2 ^ z.toNat) :
    Tiler.xyzToTMS row z = 2 ^ z.toNat - 1 - row ∧
    Tiler.tmsToXYZ (Tiler.xyzToTMS row z) z = row ∧
    Tiler.xyzToTMS (Tiler.tmsToXYZ row z) z = row ∧
    (0 ≤ Tiler.xyzToTMS row z ∧ Tiler.xyzToTMS row z < 2 ^ z.toNat) ∧
    (0 ≤ Tiler.tmsToXYZ row z ∧ Tiler.tmsToXYZ row z < 2 ^ z.toNat) := by
  unfold Tiler.xyzToTMS Tiler.tmsToXYZ
  refine ⟨rfl, by ring, by ring, ⟨by omega, by omega⟩, ⟨by omega, by omega⟩⟩

theorem xyzToTMS_tmsToXYZ_inverse_witness :
    ((0 : Int) ≤ 3 ∧ (0 : Int) ≤ 5 ∧ (5 : Int) < 2 ^ (3 : Int).toNat) ∧
    Tiler.xyzToTMS 5 3 = 2 ^ (3 : Int).toNat - 1 - 5 ∧
    Tiler.tmsToXYZ (Tiler.xyzToTMS 5 3) 3 = 5 :=
  ⟨by decide,
    (xyzToTMS_tmsToXYZ_inverse 5 3 (by decide) (by decide) (by decide)).1,
    (xyzToTMS_tmsToXYZ_inverse 5 3 (by decide) (by decide) (by decide)).2.1⟩

/-- For the zoom levels up to 30 the powers of two and both row conversions
stay inside the range of a 32-bit `int`. -/
theorem xyzToTMS_fits_int (row z : Int) (hz30 : z ≤ 30) (h0 : 0 ≤ row)
    (h1 : row < 2 ^ z.toNat) :
    (2 : Int) ^ z.toNat < 2 ^ 31 ∧
    (0 ≤ Tiler.xyzToTMS row z ∧ Tiler.xyzToTMS row z < 2 ^ 31) ∧
    (0 ≤ Tiler.tmsToXYZ row z ∧ Tiler.tmsToXYZ row z < 2 ^ 31) := by
  have hp : (2 : Int) ^ z.toNat ≤ 2 ^ 30 :=
    pow_le_pow_right₀ (by norm_num) (by omega)
  unfold Tiler.xyzToTMS Tiler.tmsToXYZ
  refine ⟨by omega, ⟨by omega, by omega⟩, ⟨by omega, by omega⟩⟩


/-! ## Tile enumeration: properties -/

theorem intRange_length (lo hi : Int) (h : lo ≤ hi) :
    ((intRange lo hi).length : Int) = hi - lo + 1 := by
  simp only [intRange, List.length_map, List.length_range]
  omega

theorem mem_intRange (lo hi i : Int) : i ∈ intRange lo hi ↔ lo ≤ i ∧ i ≤ hi := by
  simp only [intRange, List.mem_map, List.mem_range]
  constructor
  · rintro ⟨k, hk, rfl⟩
    omega
  · rintro ⟨h1, h2⟩
    exact ⟨(i - lo).toNat, by omega, by omega⟩

theorem intRange_nodup (lo hi : Int) : (intRange lo hi).Nodup := by
  unfold intRange
  apply List.Nodup.map _ (List.nodup_range _)
  intro a b hab
  simpa using hab

theorem length_flatMap_const {α β : Type} (l : List α) (f : α → List β) (k : Nat)
    (h : ∀ a, (f a).length = k) : (l.flatMap f).length = l.length * k := by
  induction l with
  | nil => simp
  | cons a l ih =>
    rw [List.flatMap_cons, List.length_append, ih, h, List.length_cons]
    ring

theorem tileGrid_enumerates (x0 x1 y0 y1 z : Int) (hx : x0 ≤ x1) (hy : y0 ≤ y1) :
    (((intRange y0 y1).flatMap (fun ty =>
        (intRange x0 x1).map (fun tx => ({ tx := tx, ty := ty, tz := z } : TileInfo)))).length
      : Int) = (x1 - x0 + 1) * (y1 - y0 + 1) ∧
    (∀ ti ∈ (intRange y0 y1).flatMap (fun ty =>
        (intRange x0 x1).map (fun tx => ({ tx := tx, ty := ty, tz := z } : TileInfo))),
      ti.tz = z ∧ x0 ≤ ti.tx ∧ ti.tx ≤ x1 ∧ y0 ≤ ti.ty ∧ ti.ty ≤ y1) ∧
    ((intRange y0 y1).flatMap (fun ty =>
        (intRange x0 x1).map (fun tx => ({ tx := tx, ty := ty, tz := z } : TileInfo)))).Pairwise
      (fun a b => (a.tx, a.ty) ≠ (b.tx, b.ty)) := by
  refine ⟨?_, ?_, ?_⟩
  · rw [length_flatMap_const _ _ (intRange x0 x1).length (fun a => by simp)]
    push_cast
    rw [intRange_length _ _ hx, intRange_length _ _ hy]
    ring
  · intro ti hti
    rw [List.mem_flatMap] at hti
    obtain ⟨ty, hty, hti⟩ := hti
    rw [List.mem_map] at hti
    obtain ⟨tx, htx, rfl⟩ := hti
    rw [mem_intRange] at hty htx
    exact ⟨rfl, htx.1, htx.2, hty.1, hty.2⟩
  · rw [List.pairwise_flatMap]
    constructor
    · intro ty _
      rw [List.pairwise_map]
      exact (intRange_nodup x0 x1).imp (fun hne h => hne (by simpa using h))
    · exact (intRange_nodup y0 y1).imp (fun hne a ha b hb h => by
        rw [List.mem_map] at ha hb
        obtain ⟨_, _, rfl⟩ := ha
        obtain ⟨_, _, rfl⟩ := hb
        simp only [Prod.mk.injEq] at h
        exact hne h.2)

theorem getMinMaxCoordsForZ_integral (t : Tiler) (tz : Int) :
    ∃ x0 x1 y0 y1 : Int, x0 ≤ x1 ∧ y0 ≤ y1 ∧
      t.getMinMaxCoordsForZ tz =
        { min := { x := (x0 : ℚ), y := (y0 : ℚ) }, max := { x := (x1 : ℚ), y := (y1 : ℚ) } } := by
  simp only [Tiler.getMinMaxCoordsForZ, GlobalMercator.metersToTile, GlobalMercator.pixelsToTile]
  simp only [← Int.cast_min, ← Int.cast_max]
  exact ⟨_, _, _, _, min_le_max, min_le_max, rfl⟩

/-- C4: `getTilesForZoomLevel(z)` has exactly
`(maxColumn - minColumn + 1) · (maxRow - minRow + 1)` entries for the box
`getMinMaxCoordsForZ(z)`; every entry has `tz = z` and lies inside the box,
and no (column, row) pair appears twice. -/
theorem getTilesForZoomLevel_enumerates_box (t : Tiler) (z : Int) :
    ((t.getTilesForZoomLevel z).length : ℚ) =
      ((t.getMinMaxCoordsForZ z).max.x - (t.getMinMaxCoordsForZ z).min.x + 1) *
        ((t.getMinMaxCoordsForZ z).max.y - (t.getMinMaxCoordsForZ z).min.y + 1) ∧
    (∀ ti ∈ t.getTilesForZoomLevel z,
      ti.tz = z ∧
      (t.getMinMaxCoordsForZ z).min.x ≤ ti.tx ∧ (ti.tx : ℚ) ≤ (t.getMinMaxCoordsForZ z).max.x ∧
      (t.getMinMaxCoordsForZ z).min.y ≤ ti.ty ∧ (ti.ty : ℚ) ≤ (t.getMinMaxCoordsForZ z).max.y) ∧
    (t.getTilesForZoomLevel z).Pairwise (fun a b => (a.tx, a.ty) ≠ (b.tx, b.ty)) := by
  obtain ⟨x0, x1, y0, y1, hx, hy, hbox⟩ := getMinMaxCoordsForZ_integral t z
  obtain ⟨h1, h2, h3⟩ := tileGrid_enumerates x0 x1 y0 y1 z hx hy
  simp only [Tiler.getTilesForZoomLevel, hbox, doubleToInt_intCast]
  refine ⟨?_, ?_, h3⟩
  · have := congrArg (fun n : Int => (n : ℚ)) h1
    simp only [Int.cast_natCast, Int.cast_mul, Int.cast_add, Int.cast_sub, Int.cast_one] at this
    exact this
  · intro ti hti
    obtain ⟨ha, hb, hc, hd, he⟩ := h2 ti hti
    exact ⟨ha, by exact_mod_cast hb, by exact_mod_cast hc, by exact_mod_cast hd,
      by exact_mod_cast he⟩


/-! ## Zoom range parsing: properties -/

theorem digitChar_isDigit (d : Nat) (h : d < 10) :
    (Nat.digitChar d).isDigit = true ∧ (Nat.digitChar d).toNat - 48 = d := by
  interval_cases d <;> decide

theorem decimalValue_append (l : List Char) (c : Char) :
    decimalValue (l ++ [c]) = 10 * decimalValue l + (c.toNat - 48) := by
  simp [decimalValue, List.foldl_append]

theorem toDigitsCore_append (fuel n : Nat) (ds : List Char) :
    Nat.toDigitsCore 10 fuel n ds = Nat.toDigitsCore 10 fuel n [] ++ ds := by
  induction fuel generalizing n ds with
  | zero => simp [Nat.toDigitsCore]
  | succ fuel ih =>
    simp only [Nat.toDigitsCore]
    split
    · simp
    · rw [ih (n / 10) (_ :: ds), ih (n / 10) [_]]
      simp

theorem toDigitsCore_decimal (fuel n : Nat) (h : n < fuel) :
    Nat.toDigitsCore 10 fuel n [] ≠ [] ∧
    (∀ c ∈ Nat.toDigitsCore 10 fuel n [], c.isDigit = true) ∧
    decimalValue (Nat.toDigitsCore 10 fuel n []) = n := by
  induction fuel generalizing n with
  | zero => omega
  | succ fuel ih =>
    have hd := digitChar_isDigit (n % 10) (Nat.mod_lt _ (by norm_num))
    simp only [Nat.toDigitsCore]
    split
    · rename_i h0
      refine ⟨by simp, by simpa using hd.1, ?_⟩
      simp only [decimalValue, List.foldl_cons, List.foldl_nil, hd.2]
      omega
    · rename_i h0
      have hlt : n / 10 < fuel := by omega
      obtain ⟨h1, h2, h3⟩ := ih (n / 10) hlt
      rw [toDigitsCore_append]
      refine ⟨by simp [h1], ?_, ?_⟩
      · intro c hc
        rcases List.mem_append.mp hc with hc | hc
        · exact h2 c hc
        · simp only [List.mem_singleton] at hc
          rw [hc]; exact hd.1
      · rw [decimalValue_append, h3, hd.2]
        omega

theorem repr_decimal (n : Nat) :
    (toString n).toList ≠ [] ∧
    (∀ c ∈ (toString n).toList, c.isDigit = true) ∧
    decimalValue (toString n).toList = n := by
  have h := toDigitsCore_decimal (n + 1) n (by omega)
  simpa [toString, Nat.repr, Nat.toDigits] using h

theorem parseInteger_repr (n : Nat) : parseInteger (toString n).toList = some n := by
  obtain ⟨h1, h2, h3⟩ := repr_decimal n
  unfold parseInteger
  rw [if_pos ⟨h1, by simpa [List.all_eq_true] using h2⟩, h3]

theorem span_digits (l r : List Char) (h : ∀ c ∈ l, c.isDigit = true) :
    (l ++ '-' :: r).span (fun c => c != '-') = (l, '-' :: r) ∧
    l.span (fun c => c != '-') = (l, []) := by
  have hne : ∀ c ∈ l, (c != '-') = true := by
    intro c hc
    have := h c hc
    by_cases hcd : c = '-'
    · rw [hcd] at this; exact absurd this (by decide)
    · simpa using hcd
  rw [List.span_eq_take_drop, List.span_eq_take_drop]
  refine ⟨?_, ?_⟩
  · rw [List.takeWhile_append_of_pos hne, List.dropWhile_append_of_pos hne]
    simp
  · have h1 : l.takeWhile (fun c => c != '-') = l := List.takeWhile_eq_self_iff.mpr hne
    have h2 : l.dropWhile (fun c => c != '-') = [] := List.dropWhile_eq_nil_iff.mpr hne
    rw [h1, h2]


theorem isNumeral_of_parseInteger (s : List Char) (n : Nat) (h : parseInteger s = some n) :
    isNumeral s := by
  unfold parseInteger at h
  split at h
  · rename_i hc
    exact ⟨hc.1, by simpa [List.all_eq_true] using hc.2⟩
  · exact absurd h (by simp)

theorem span_dash_nil (l lo : List Char) (h : l.span (fun c => c != '-') = (lo, [])) :
    lo = l := by
  rw [List.span_eq_take_drop] at h
  simp only [Prod.mk.injEq] at h
  obtain ⟨h1, h2⟩ := h
  rw [← h1]
  exact List.takeWhile_eq_self_iff.mpr (List.dropWhile_eq_nil_iff.mp h2)

theorem span_dash_cons (l lo hi : List Char) (c : Char)
    (h : l.span (fun c => c != '-') = (lo, c :: hi)) : l = lo ++ '-' :: hi := by
  rw [List.span_eq_take_drop] at h
  simp only [Prod.mk.injEq] at h
  obtain ⟨h1, h2⟩ := h
  have hc : c = '-' := by
    have := List.head?_dropWhile_not (fun c => c != '-') l
    rw [h2] at this
    simpa using this
  rw [← List.takeWhile_append_dropWhile (fun c => c != '-') l, h1, h2, hc]

/-- C5: `parseZRange` on a string holding a single integer `z` returns
`{z, z}`; on `"a-b"` it returns `{a, b}` when `a ≤ b` and fails with an
invalid-argument error when `a > b`; and it fails with an invalid-argument
error on every string that is neither an integer nor two integers joined by
a dash. -/
theorem parseZRange_contract :
    (∀ z : Nat, TilerHelper.parseZRange (toString z) = .ok { min := z, max := z }) ∧
    (∀ a b : Nat,
      (a ≤ b → TilerHelper.parseZRange (toString a ++ "-" ++ toString b) =
        .ok { min := a, max := b }) ∧
      (b < a → ∃ msg, TilerHelper.parseZRange (toString a ++ "-" ++ toString b) =
        .error (.InvalidArgsException msg))) ∧
    (∀ s : String, ¬ isNumeral s.toList →
      (¬ ∃ lo hi, isNumeral lo ∧ isNumeral hi ∧ s.toList = lo ++ '-' :: hi) →
      ∃ msg, TilerHelper.parseZRange s = .error (.InvalidArgsException msg)) := by
  refine ⟨?_, ?_, ?_⟩
  · intro z
    unfold TilerHelper.parseZRange
    rw [(span_digits _ [] (repr_decimal z).2.1).2]
    simp only [parseInteger_repr]
  · intro a b
    have hl : (toString a ++ "-" ++ toString b).toList =
        (toString a).toList ++ '-' :: (toString b).toList := by
      simp [String.toList, String.data_append]
    unfold TilerHelper.parseZRange
    rw [hl, (span_digits _ (toString b).toList (repr_decimal a).2.1).1]
    simp only [parseInteger_repr]
    constructor
    · intro hab
      rw [if_pos hab]
    · intro hba
      rw [if_neg (by omega)]
      exact ⟨_, rfl⟩
  · intro s h1 h2
    unfold TilerHelper.parseZRange
    rcases hsp : s.toList.span (fun c => c != '-') with ⟨lo, rest⟩
    cases rest with
    | nil =>
      have hlo := span_dash_nil _ _ hsp
      simp only
      cases hp : parseInteger lo with
      | none => exact ⟨_, rfl⟩
      | some n => exact absurd (hlo ▸ isNumeral_of_parseInteger lo n hp) h1
    | cons c hi =>
      have hs := span_dash_cons _ _ _ _ hsp
      simp only
      cases hp : parseInteger lo with
      | none => exact ⟨_, rfl⟩
      | some n =>
        cases hq : parseInteger hi with
        | none => exact ⟨_, rfl⟩
        | some m =>
          exact absurd ⟨lo, hi, isNumeral_of_parseInteger lo n hp,
            isNumeral_of_parseInteger hi m hq, hs⟩ h2

theorem parseZRange_contract_witness :
    ((3 : Nat) ≤ 5 ∧ TilerHelper.parseZRange (toString 3 ++ "-" ++ toString 5) =
        .ok { min := ((3 : Nat) : Int), max := ((5 : Nat) : Int) }) ∧
    ((3 : Nat) < 5 ∧ ∃ msg, TilerHelper.parseZRange (toString 5 ++ "-" ++ toString 3) =
        .error (.InvalidArgsException msg)) ∧
    (¬ isNumeral "auto".toList ∧
      ∃ msg, TilerHelper.parseZRange "auto" = .error (.InvalidArgsException msg)) :=
  have hnum : ¬ isNumeral "auto".toList := fun h =>
    absurd (h.2 'a' (by decide)) (by decide)
  ⟨⟨by decide, (parseZRange_contract.2.1 3 5).1 (by decide)⟩,
    ⟨by decide, (parseZRange_contract.2.1 5 3).2 (by decide)⟩,
    ⟨hnum, parseZRange_contract.2.2 "auto" hnum (by
      rintro ⟨lo, hi, _, _, h⟩
      have hmem : '-' ∈ "auto".toList := by rw [h]; simp
      exact absurd hmem (by decide))⟩⟩

end ddb
